import Mathlib

/-!
Verification development for the managed-process registry and lifecycle
reconciler of the dev-server control plane (source: `src/index.ts`).

The TypeScript source is shallowly embedded: the registry is an association
list from process names to configurations, the external PM2 supervisor is
a list of live process descriptors, lifecycle commands are an inductive
type rendered to the exact command strings the source passes to `exec`,
and log files are byte lists.  Each tool handler becomes a pure function
from the loaded state (plus the observed supervisor/file environment) to
the new state, the issued commands, and the returned payload.
-/

namespace DevServer

/-- Configuration of one managed process, mirroring the source's
`ManagedProcessConfig` interface.  Optional TypeScript fields become
`Option`; `env` is an association list of variable bindings; `instances`
is an integer as in the source (a JS number used with `> 0`). -/
structure ManagedProcessConfig where
  name : String
  script : String
  cwd : Option String := none
  args : Option (List String) := none
  env : Option (List (String × String)) := none
  interpreter : Option String := none
  instances : Option Int := none
  watch : Option Bool := none
  autorestart : Option Bool := none
  logOffset : Option Nat := none
deriving Repr, DecidableEq

/-- The persisted registry document (`DevServerState` in the source):
a mapping from process name to configuration, embedded as an association
list that preserves insertion order as a JS object does.  The
`lastSynced` timestamp is wall-clock metadata and is not modelled. -/
structure DevServerState where
  managedProcesses : List (String × ManagedProcessConfig) := []
deriving Repr, DecidableEq

/-- Lookup `serverState.managedProcesses[name]`. -/
def lookupProcess (st : DevServerState) (name : String) :
    Option ManagedProcessConfig :=
  (st.managedProcesses.find? (fun p => p.1 = name)).map (fun p => p.2)

/-- Assignment `serverState.managedProcesses[name] = cfg`: replace the
binding in place when the key is present, append it otherwise. -/
def setEntry (l : List (String × ManagedProcessConfig)) (k : String)
    (v : ManagedProcessConfig) : List (String × ManagedProcessConfig) :=
  match l with
  | [] => [(k, v)]
  | (k', v') :: tl =>
      if k' = k then (k, v) :: tl else (k', v') :: setEntry tl k v

/-- `delete serverState.managedProcesses[name]`. -/
def removeEntry (l : List (String × ManagedProcessConfig)) (k : String) :
    List (String × ManagedProcessConfig) :=
  l.filter (fun p => p.1 ≠ k)

/-- Update the registry mapping of a state. -/
def DevServerState.setProcess (st : DevServerState) (k : String)
    (v : ManagedProcessConfig) : DevServerState :=
  { st with managedProcesses := setEntry st.managedProcesses k v }

/-- Remove a name from the registry mapping of a state. -/
def DevServerState.removeProcess (st : DevServerState) (k : String) :
    DevServerState :=
  { st with managedProcesses := removeEntry st.managedProcesses k }

/-- One live PM2 process descriptor as observed through `pm2 jlist`:
its `name` and the optional `pm2_env.status` field. -/
structure Pm2ProcessInfo where
  name : String
  status : Option String
deriving Repr, DecidableEq

/-- The supervisor's live process table, in `jlist` order.  PM2 has no
uniqueness constraint on names, so this is a plain list. -/
abbrev Pm2World := List Pm2ProcessInfo

/-- Source `getPm2ProcessInfo`: `processes.find(p => p.name === name) || null`. -/
def getPm2ProcessInfo (procs : Pm2World) (name : String) :
    Option Pm2ProcessInfo :=
  procs.find? (fun p => p.name = name)

/-- A lifecycle command issued to PM2. -/
inductive Pm2Command where
  | create (cfg : ManagedProcessConfig)
  | restart (name : String)
  | deleteProc (name : String)
  | stop (name : String)
deriving Repr, DecidableEq

/-- Source `startPm2Process`, lines building `parts`: the argument list of
the `pm2 start` invocation, assembled segment by segment from the config. -/
def buildStartParts (config : ManagedProcessConfig) : List String :=
  ["pm2", "start", config.script, "--name", config.name]
  ++ (match config.interpreter with
      | some i => ["--interpreter", i]
      | none => [])
  ++ (match config.cwd with
      | some d => ["--cwd", d]
      | none => [])
  ++ (match config.instances with
      | some n => if 0 < n then ["-i", toString n] else []
      | none => [])
  ++ (if config.watch = some true then ["--watch"] else [])
  ++ (if config.watch = some false then ["--no-watch"] else [])
  ++ (if config.autorestart = some true then [] else ["--no-autorestart"])
  ++ (match config.args with
      | some as => if 0 < as.length then "--" :: as else []
      | none => [])

/-- Source `parts.join(' ')`: the single string handed to `runPm2`,
which executes it through the shell via `exec`. -/
def startCommandString (config : ManagedProcessConfig) : String :=
  String.intercalate " " (buildStartParts config)

/-- The exact shell string `runPm2` receives for each lifecycle command
(`pm2 delete ${name}` and friends are template literals in the source). -/
def pm2CommandString : Pm2Command → String
  | .create cfg => startCommandString cfg
  | .restart n => "pm2 restart " ++ n
  | .deleteProc n => "pm2 delete " ++ n
  | .stop n => "pm2 stop " ++ n

/-- Source `startPm2Process`, duplicate-prevention dispatch: query PM2 for
an existing process of the same name; online means no-op, stopped means
restart, any other observed entry is deleted before a fresh `pm2 start`
is issued, and an absent entry leads directly to a fresh `pm2 start`.
The returned list is the sequence of lifecycle commands issued. -/
def startPm2Process (procs : Pm2World) (config : ManagedProcessConfig) :
    List Pm2Command :=
  match getPm2ProcessInfo procs config.name with
  | some existingProcess =>
      if existingProcess.status = some "online" then
        []
      else if existingProcess.status = some "stopped" then
        [Pm2Command.restart config.name]
      else
        [Pm2Command.deleteProc config.name, Pm2Command.create config]
  | none => [Pm2Command.create config]

/-- Modelled from the spec: the external supervisor is an "already-correct
external black box".  Applying a lifecycle command to its live table:
`start` appends a fresh online process (PM2 "has no native uniqueness
constraint on names", §4.3), `restart` brings the named entries online,
`delete` removes them, `stop` marks them stopped. -/
def applyPm2Command (procs : Pm2World) : Pm2Command → Pm2World
  | .create cfg => procs ++ [⟨cfg.name, some "online"⟩]
  | .restart n =>
      procs.map (fun p => if p.name = n then { p with status := some "online" } else p)
  | .deleteProc n => procs.filter (fun p => p.name ≠ n)
  | .stop n =>
      procs.map (fun p => if p.name = n then { p with status := some "stopped" } else p)

/-- Run a command sequence against the supervisor table. -/
def applyPm2Commands (procs : Pm2World) : List Pm2Command → Pm2World
  | [] => procs
  | c :: cs => applyPm2Commands (applyPm2Command procs c) cs

/-- Number of live supervisor entries carrying a given name. -/
def countName (procs : Pm2World) (n : String) : Nat :=
  procs.countP (fun p => p.name = n)

/-- Modelled from the spec (§4.2, §7(c)): the raw `pm2 delete <name>`
invocation of the external supervisor errors on a name it does not know
("not-found-on-supervisor"); on a known name it removes the entries. -/
def rawPm2Delete (procs : Pm2World) (name : String) :
    Except String Pm2World :=
  if procs.any (fun p => p.name = name) then
    Except.ok (procs.filter (fun p => p.name ≠ name))
  else
    Except.error "not found"

/-- Source `deletePm2Process`: the `try/catch` around `pm2 delete`
swallows the not-found error as a no-op, leaving the table as observed. -/
def deletePm2Process (procs : Pm2World) (name : String) : Pm2World :=
  match rawPm2Delete procs name with
  | .ok ps => ps
  | .error _ => procs

/-- The partial update fields accepted by `update-managed-process`
(the input schema's optional fields; `name` is handled separately and
`logOffset` is not part of the schema).  A field that is `none` was not
supplied in the call, so the JS object spread leaves the stored value. -/
structure UpdateFields where
  script : Option String := none
  cwd : Option String := none
  args : Option (List String) := none
  env : Option (List (String × String)) := none
  interpreter : Option String := none
  instances : Option Int := none
  watch : Option Bool := none
  autorestart : Option Bool := none
deriving Repr, DecidableEq

/-- Source `update-managed-process` merge `{ ...existing, ...updates, name }`:
supplied fields override the stored ones, unspecified fields keep the
stored value, the `name` field is forced back to the addressed key, and
`logOffset` (never in `updates`) is carried over unchanged. -/
def mergeConfig (existing : ManagedProcessConfig) (name : String)
    (u : UpdateFields) : ManagedProcessConfig :=
  { name := name
    script := match u.script with | some v => v | none => existing.script
    cwd := match u.cwd with | some v => some v | none => existing.cwd
    args := match u.args with | some v => some v | none => existing.args
    env := match u.env with | some v => some v | none => existing.env
    interpreter := match u.interpreter with
      | some v => some v
      | none => existing.interpreter
    instances := match u.instances with
      | some v => some v
      | none => existing.instances
    watch := match u.watch with | some v => some v | none => existing.watch
    autorestart := match u.autorestart with
      | some v => some v
      | none => existing.autorestart
    logOffset := existing.logOffset }

/-- Outcome of the `update-managed-process` handler: the persisted state,
the lifecycle commands issued, and the returned config or thrown error. -/
structure UpdateResult where
  state : DevServerState
  commands : List Pm2Command
  result : Except String ManagedProcessConfig
deriving Repr

/-- Source `update-managed-process` handler: a missing registration throws
before any mutation; otherwise the merged config is stored and persisted,
and with `applyToPm2` the live process is deleted and `startPm2Process`
runs against the supervisor table left by that deletion. -/
def updateTool (st : DevServerState) (procs : Pm2World) (name : String)
    (u : UpdateFields) (applyToPm2 : Bool) : UpdateResult :=
  match lookupProcess st name with
  | none =>
      { state := st
        commands := []
        result := Except.error ("Managed process '" ++ name ++
          "' is not registered. Use register-managed-process first.") }
  | some existing =>
      let updated := mergeConfig existing name u
      let st2 := st.setProcess name updated
      let cmds :=
        if applyToPm2 then
          Pm2Command.deleteProc name ::
            startPm2Process (deletePm2Process procs name) updated
        else []
      { state := st2, commands := cmds, result := Except.ok updated }

/-- Parameters of `register-managed-process` (its input schema). -/
structure RegisterParams where
  name : String
  script : String
  cwd : Option String := none
  args : Option (List String) := none
  env : Option (List (String × String)) := none
  interpreter : Option String := none
  instances : Option Int := none
  watch : Option Bool := none
  autorestart : Option Bool := none
  startImmediately : Bool := true
deriving Repr, DecidableEq

/-- The config object the register handler builds: note that it carries
no `logOffset`, so re-registering a name discards any recorded offset. -/
def configOfParams (p : RegisterParams) : ManagedProcessConfig :=
  { name := p.name
    script := p.script
    cwd := p.cwd
    args := p.args
    env := p.env
    interpreter := p.interpreter
    instances := p.instances
    watch := p.watch
    autorestart := p.autorestart
    logOffset := none }

/-- Source `register-managed-process` handler: store the fresh config
under `config.name`, persist, and when `startImmediately` run the
duplicate-prevention start path. -/
def registerTool (st : DevServerState) (procs : Pm2World)
    (p : RegisterParams) : DevServerState × List Pm2Command :=
  let config := configOfParams p
  let st2 := st.setProcess config.name config
  (st2, if p.startImmediately then startPm2Process procs config else [])

/-- Source `stop-managed-process` handler: it issues `pm2 stop` (errors
swallowed) and never touches the registry state. -/
def stopTool (st : DevServerState) (name : String) :
    DevServerState × List Pm2Command :=
  (st, [Pm2Command.stop name])

/-- Source `delete-managed-process` handler: optionally delete from PM2
(not-found swallowed by `deletePm2Process`), remove the registry entry,
persist, and report `success: true` unconditionally. -/
def deleteTool (st : DevServerState) (procs : Pm2World) (name : String)
    (deleteFromPm2 : Bool) : DevServerState × Pm2World × Bool :=
  let procs2 := if deleteFromPm2 then deletePm2Process procs name else procs
  (st.removeProcess name, procs2, true)

/-! ### Log freshness tracker -/

/-- The read cap of the fresh-only path: `const maxBytes = 1024 * 1024`. -/
def maxBytes : Nat := 1024 * 1024

/-- ASCII rendering of a byte list, as `buffer.toString('utf8')` renders
single-byte content. -/
def bytesToText (bs : List Nat) : String :=
  String.mk (bs.map Char.ofNat)

/-- The literal placeholder returned when nothing new was appended. -/
def noNewLogsMsg : String := "(no new logs since last restart)"

/-- Source fresh-only read core (`read-managed-process-logs`, fresh path):
given the log file's bytes and the stored offset, compute
`bytesToRead = stats.size - offset`; when positive, read
`min(bytesToRead, maxBytes)` bytes starting at `offset` and advance the
offset by the amount read; otherwise return the placeholder text and
leave the offset alone.  Returns the text and the new offset. -/
def freshRead (file : List Nat) (offset : Nat) : String × Nat :=
  let bytesToRead : Int := (file.length : Int) - (offset : Int)
  if 0 < bytesToRead then
    let readSize := min bytesToRead.toNat maxBytes
    (bytesToText ((file.drop offset).take readSize), offset + readSize)
  else
    (noNewLogsMsg, offset)

/-- What a log read handed back, separating the incremental fresh path
from the `pm2 logs` tail fallback (whose text comes from the external
supervisor plus formatting stripping, outside the registry model). -/
inductive LogOutput where
  | freshChunk (text : String)
  | noNew
  | tailFallback
deriving Repr, DecidableEq

/-- Source `read-managed-process-logs` handler.  The fresh path is taken
only when `freshOnly` is set and the addressed entry has a recorded
`logOffset`; a log file that cannot be opened (`outFile = none`) falls
back to the tail-based read.  On a successful incremental read the stored
offset is advanced and persisted; every other path leaves the registry
untouched. -/
def readLogsTool (st : DevServerState) (outFile : Option (List Nat))
    (name : String) (freshOnly : Bool) : DevServerState × LogOutput :=
  let hasOffset := ((lookupProcess st name).bind (fun c => c.logOffset)).isSome
  if freshOnly && hasOffset then
    match outFile with
    | none => (st, LogOutput.tailFallback)
    | some file =>
        match lookupProcess st name with
        | none => (st, LogOutput.tailFallback)
        | some cfg =>
            let offset := cfg.logOffset.getD 0
            let out := freshRead file offset
            if offset < file.length then
              (st.setProcess name { cfg with logOffset := some out.2 },
               LogOutput.freshChunk out.1)
            else
              (st, LogOutput.noNew)
  else
    (st, LogOutput.tailFallback)

/-! ### Endpoint discovery -/

/-- Prefix test on lists, used to embed the source's string scans. -/
def listStartsWith : List Char → List Char → Bool
  | _, [] => true
  | [], _ :: _ => false
  | a :: as, b :: bs => a = b && listStartsWith as bs

/-- Substring containment on characters (JS `String.prototype.includes`). -/
def listContainsSub : List Char → List Char → Bool
  | [], pat => pat.isEmpty
  | a :: tl, pat => listStartsWith (a :: tl) pat || listContainsSub tl pat

/-- JS `href.includes(pat)`. -/
def strIncludes (s pat : String) : Bool :=
  listContainsSub s.data pat.data

/-- Split a character list at the characters satisfying `p`, keeping the
accumulated token (possibly empty) at each separator. -/
def splitCharsAux (p : Char → Bool) : List Char → List Char → List (List Char)
  | [], acc => [acc.reverse]
  | c :: cs, acc =>
      if p c then acc.reverse :: splitCharsAux p cs []
      else splitCharsAux p cs (c :: acc)

/-- Modelled from the spec (§4.5): `linkify.find(logs, 'url')` is an
external library that "extract[s] all syntactically valid URLs from the
text"; modelled as the whitespace-delimited tokens carrying an explicit
http or https scheme, in text order. -/
def findUrls (text : String) : List String :=
  ((splitCharsAux Char.isWhitespace text.data []).map
      (fun cs => String.mk cs)).filter
    (fun t => listStartsWith t.data ("http://".data)
      || listStartsWith t.data ("https://".data))

/-- Source loopback preference predicate: the found link's full `href`
contains one of the three substrings (not merely its host component). -/
def isLocalHref (l : String) : Bool :=
  strIncludes l "localhost" || strIncludes l "127.0.0.1" ||
    strIncludes l "0.0.0.0"

/-- Source `const foundUrl = localUrl || links[0]`. -/
def pickUrl (links : List String) : Option String :=
  match links.find? isLocalHref with
  | some u => some u
  | none => links.head?

/-- Source `url.replace(/\/+$/, '')`: strip trailing slash characters. -/
def dropTrailingSlashes (s : String) : String :=
  String.mk ((s.data.reverse.dropWhile (fun c => c = '/')).reverse)

/-- Separator class of the port regex `[\s:]+`. -/
def isPortSep (c : Char) : Bool :=
  c = ' ' || c = '\t' || c = '\n' || c = '\r' || c = ':'

/-- Attempt of the port regex `(?:port|Port|PORT)[\s:]+(\d{4,5})` at one
position: one of the three exact-case keywords, then at least one
separator, then a digit run of length at least 4, of which the greedy
`\d{4,5}` captures the first five (or four) digits. -/
def matchPortAt (cs : List Char) : Option (List Char) :=
  let kw :=
    if listStartsWith cs ("port".data) then some (cs.drop 4)
    else if listStartsWith cs ("Port".data) then some (cs.drop 4)
    else if listStartsWith cs ("PORT".data) then some (cs.drop 4)
    else none
  match kw with
  | none => none
  | some rest =>
      let sep := rest.takeWhile isPortSep
      if sep.length = 0 then none
      else
        let digits := (rest.drop sep.length).takeWhile Char.isDigit
        if 4 ≤ digits.length then some (digits.take 5) else none

/-- Leftmost match of the port regex over the whole text
(JS `logs.match(...)`, capture group 1). -/
def findPortMatch : List Char → Option (List Char)
  | [] => none
  | c :: rest =>
      match matchPortAt (c :: rest) with
      | some d => some d
      | none => findPortMatch rest

/-- Source endpoint discovery in `start-managed-process`: pick a URL from
the linkified log text (loopback-containing hrefs first, else the first
link), strip its trailing slashes; with no URL at all, fall back to the
port regex and synthesize `http://localhost:<port>`; with neither,
report nothing. -/
def discoverUrl (logs : String) : Option String :=
  match pickUrl (findUrls logs) with
  | some u => some (dropTrailingSlashes u)
  | none =>
      match findPortMatch logs.data with
      | some digits => some ("http://localhost:" ++ String.mk digits)
      | none => none

/-- Source `urlInfo`: the suffix added to the start message. -/
def urlInfoText (logs : String) : String :=
  match discoverUrl logs with
  | some u => " on " ++ u
  | none => ""

/-! ### The start tool -/

/-- An observable side effect of a handler: a command string handed to
`runPm2` (hence to the shell), or a `persistState()` write of the
registry document. -/
inductive Effect where
  | runPm2 (command : String)
  | persistState (st : DevServerState)
deriving Repr, DecidableEq

/-- Outcome of the `start-managed-process` handler: final in-memory
state, the ordered effect trace, and the returned text or thrown error. -/
structure StartResult where
  state : DevServerState
  effects : List Effect
  result : Except String String
deriving Repr

/-- Source `start-managed-process` handler.  An unregistered name throws
before any supervisor call or persist.  Otherwise the duplicate-prevention
start path runs (one `pm2 jlist` query plus its lifecycle commands), the
out-log size is recorded as the fresh-log offset and persisted when the
log file exists (`outSize`), the recent logs are fetched (`logsQueryCmd`)
and scanned for an endpoint, and the handler reports success with the
optional discovered address. -/
def startTool (st : DevServerState) (procs : Pm2World)
    (outSize : Option Nat) (logsText : String) (name : String) :
    StartResult :=
  match lookupProcess st name with
  | none =>
      { state := st
        effects := []
        result := Except.error ("Server '" ++ name ++
          "' is not registered. Use register-managed-process first.") }
  | some config =>
      let cmds := startPm2Process procs config
      let afterOffset :=
        match outSize with
        | some size => st.setProcess name { config with logOffset := some size }
        | none => st
      let offsetEffects :=
        match outSize with
        | some _ => [Effect.persistState afterOffset]
        | none => []
      let logsQueryCmd := "pm2 logs " ++ name ++ " --lines 100 --nostream"
      { state := afterOffset
        effects :=
          Effect.runPm2 "pm2 jlist" ::
            cmds.map (fun c => Effect.runPm2 (pm2CommandString c)) ++
            offsetEffects ++ [Effect.runPm2 logsQueryCmd]
        result := Except.ok ("Server '" ++ name ++ "' started" ++
          urlInfoText logsText) }

/-! ### Registry mutation sequences -/

/-- A registry-mutating operation, for reasoning about every state
reachable through the register/update/delete handlers. -/
inductive RegOp where
  | register (p : RegisterParams)
  | update (name : String) (u : UpdateFields)
  | deleteOp (name : String)
deriving Repr

/-- The registry-state effect of one operation: `register` stores the
fresh config under `config.name`, `update` merges (or throws, leaving the
state alone) and `deleteOp` removes the key. -/
def applyRegOp (st : DevServerState) : RegOp → DevServerState
  | .register p => (registerTool st [] p).1
  | .update n u => (updateTool st [] n u false).state
  | .deleteOp n => st.removeProcess n

/-- Fold a sequence of operations over a state. -/
def applyRegOps (st : DevServerState) : List RegOp → DevServerState
  | [] => st
  | op :: ops => applyRegOps (applyRegOp st op) ops

/-- Every binding of the registry mapping is keyed by its own config's
`name` field. -/
def WellNamed (st : DevServerState) : Prop :=
  ∀ p ∈ st.managedProcesses, p.2.name = p.1

/-- The registry observation relevant to the log-freshness frame claims:
the addressed entry's stored `logOffset` (with entry presence). -/
def offsetAt (st : DevServerState) (k : String) : Option (Option Nat) :=
  (lookupProcess st k).map (fun c => c.logOffset)

/-- The strings of a start invocation taken from config fields (the
values a caller controls, as opposed to the builder's fixed flags). -/
def configFieldStrings (c : ManagedProcessConfig) : List String :=
  [c.script, c.name]
  ++ (match c.interpreter with | some i => [i] | none => [])
  ++ (match c.cwd with | some d => [d] | none => [])
  ++ (match c.instances with
      | some n => if 0 < n then [toString n] else []
      | none => [])
  ++ c.args.getD []

/-! ## Association-list lemmas -/

theorem find?_setEntry_self (l : List (String × ManagedProcessConfig))
    (k : String) (v : ManagedProcessConfig) :
    (setEntry l k v).find? (fun p => p.1 = k) = some (k, v) := by
  induction l with
  | nil => simp [setEntry]
  | cons hd tl ih =>
      rcases hd with ⟨k', v'⟩
      by_cases h : k' = k
      · simp [setEntry, h]
      · simp [setEntry, h, ih]

theorem find?_setEntry_other (l : List (String × ManagedProcessConfig))
    (k k' : String) (v : ManagedProcessConfig) (h : k' ≠ k) :
    (setEntry l k v).find? (fun p => p.1 = k') =
      l.find? (fun p => p.1 = k') := by
  induction l with
  | nil => simp [setEntry, Ne.symm h]
  | cons hd tl ih =>
      rcases hd with ⟨k'', v''⟩
      by_cases hk : k'' = k
      · subst hk
        simp [setEntry, Ne.symm h]
      · by_cases hk' : k'' = k'
        · simp [setEntry, hk, hk', h]
        · simp [setEntry, hk, hk', ih]

theorem lookup_setProcess_self (st : DevServerState) (k : String)
    (v : ManagedProcessConfig) :
    lookupProcess (st.setProcess k v) k = some v := by
  simp [lookupProcess, DevServerState.setProcess, find?_setEntry_self]

theorem lookup_setProcess_other (st : DevServerState) (k k' : String)
    (v : ManagedProcessConfig) (h : k' ≠ k) :
    lookupProcess (st.setProcess k v) k' = lookupProcess st k' := by
  simp [lookupProcess, DevServerState.setProcess, find?_setEntry_other _ _ _ _ h]

theorem lookup_removeProcess_self (st : DevServerState) (k : String) :
    lookupProcess (st.removeProcess k) k = none := by
  simp only [lookupProcess, DevServerState.removeProcess, removeEntry]
  rw [List.find?_eq_none.mpr]
  · rfl
  · intro p hp
    rcases List.mem_filter.mp hp with ⟨_, hne⟩
    simpa using hne

theorem find?_filter_ne (l : List (String × ManagedProcessConfig))
    (k k' : String) (h : k' ≠ k) :
    (l.filter (fun p => p.1 ≠ k)).find? (fun p => p.1 = k') =
      l.find? (fun p => p.1 = k') := by
  induction l with
  | nil => rfl
  | cons hd tl ih =>
      rcases hd with ⟨k'', v''⟩
      by_cases hk : k'' = k
      · have hne : k ≠ k' := fun hh => h hh.symm
        simpa [List.filter_cons, hk, hne, -List.find?_filter, decide_not]
          using ih
      · by_cases hk' : k'' = k'
        · simp [List.filter_cons, hk, hk', h, -List.find?_filter]
        · simpa [List.filter_cons, hk, hk', -List.find?_filter, decide_not]
            using ih

theorem lookup_removeProcess_other (st : DevServerState) (k k' : String)
    (h : k' ≠ k) :
    lookupProcess (st.removeProcess k) k' = lookupProcess st k' := by
  simp only [lookupProcess, DevServerState.removeProcess, removeEntry]
  rw [find?_filter_ne _ _ _ h]

/-! ## C3: starting an unregistered name -/

/-- C3: a start request on a name absent from the registry throws the
hard "not registered" error, leaves the registry state untouched, and
issues no supervisor command and no persist (empty effect trace). -/
theorem start_unregistered_fails (st : DevServerState) (procs : Pm2World)
    (outSize : Option Nat) (logsText : String) (name : String)
    (h : lookupProcess st name = none) :
    startTool st procs outSize logsText name =
      { state := st
        effects := []
        result := Except.error ("Server '" ++ name ++
          "' is not registered. Use register-managed-process first.") } := by
  unfold startTool
  rw [h]

/-- Witness for C3 at a concrete empty registry. -/
theorem start_unregistered_fails_witness :
    startTool { managedProcesses := [] } [] none "" "web" =
      { state := { managedProcesses := [] }
        effects := []
        result := Except.error ("Server 'web'" ++
          " is not registered. Use register-managed-process first.") } := by
  have h := start_unregistered_fails { managedProcesses := [] } [] none "" "web" rfl
  simpa using h

/-! ## C8: idempotent delete -/

/-- C8: the delete operation reports success for every name — registered
or not, known to the supervisor or not (the supervisor's "not found"
error is swallowed as a no-op) — and afterwards the registry holds no
entry for the name. -/
theorem delete_always_succeeds (st : DevServerState) (procs : Pm2World)
    (name : String) (deleteFromPm2 : Bool) :
    ((deleteTool st procs name deleteFromPm2).2.2 = true
      ∧ lookupProcess (deleteTool st procs name deleteFromPm2).1 name = none)
    ∧ (procs.all (fun p => p.name ≠ name) = true →
        rawPm2Delete procs name = Except.error "not found"
        ∧ deletePm2Process procs name = procs) := by
  constructor
  · exact ⟨rfl, lookup_removeProcess_self st name⟩
  · intro habs
    have hany : procs.any (fun p => p.name = name) = false := by
      simp only [List.all_eq_true] at habs
      simp only [List.any_eq_false]
      intro p hp
      simpa using habs p hp
    constructor
    · simp [rawPm2Delete, hany]
    · simp [deletePm2Process, rawPm2Delete, hany]

/-- Witness for C8: deleting a never-registered name, absent from the
supervisor as well, still succeeds and leaves no registry entry. -/
theorem delete_always_succeeds_witness :
    ((deleteTool { managedProcesses := [] } [⟨"other", some "online"⟩] "gone" true).2.2 = true
      ∧ lookupProcess (deleteTool { managedProcesses := [] }
          [⟨"other", some "online"⟩] "gone" true).1 "gone" = none)
    ∧ rawPm2Delete [⟨"other", some "online"⟩] "gone" = Except.error "not found" := by
  have h := delete_always_succeeds { managedProcesses := [] }
    [⟨"other", some "online"⟩] "gone" true
  exact ⟨h.1, (h.2 (by decide)).1⟩

/-! ## C1: duplicate-prevention reconciler -/

theorem countName_append (a b : Pm2World) (n : String) :
    countName (a ++ b) n = countName a n + countName b n := by
  simp [countName, List.countP_append]

theorem countName_find?_none (procs : Pm2World) (n : String)
    (h : procs.find? (fun p => p.name = n) = none) :
    countName procs n = 0 := by
  simp only [countName]
  rw [List.countP_eq_zero]
  intro a ha
  have := List.find?_eq_none.mp h a ha
  simpa using this

theorem countName_filter_ne (procs : Pm2World) (n : String) :
    countName (procs.filter (fun p => p.name ≠ n)) n = 0 := by
  simp only [countName]
  rw [List.countP_eq_zero]
  intro a ha
  rcases List.mem_filter.mp ha with ⟨_, h2⟩
  simpa using h2

theorem countName_setStatus (procs : Pm2World) (n m : String)
    (s : Option String) :
    countName (procs.map
      (fun p => if p.name = m then { p with status := s } else p)) n =
      countName procs n := by
  simp only [countName, List.countP_map]
  apply List.countP_congr
  intro a _
  by_cases h : a.name = m <;> simp [h, Function.comp]

/-- C1: on a start request for a registered config, the reconciler
queries PM2 for a live descriptor of the config's name and dispatches:
absent descriptor means a fresh create; status "online" means no
lifecycle command at all; status "stopped" means a restart instead of a
start; any other status means delete followed by a fresh create.  In
every case, a supervisor table holding at most one live entry under the
name still holds at most one after the issued commands run. -/
theorem startPm2Process_reconciles (procs : Pm2World)
    (config : ManagedProcessConfig) :
    (getPm2ProcessInfo procs config.name = none →
      startPm2Process procs config = [Pm2Command.create config])
    ∧ (∀ p, getPm2ProcessInfo procs config.name = some p →
        (p.status = some "online" → startPm2Process procs config = [])
        ∧ (p.status = some "stopped" →
            startPm2Process procs config = [Pm2Command.restart config.name])
        ∧ (p.status ≠ some "online" → p.status ≠ some "stopped" →
            startPm2Process procs config =
              [Pm2Command.deleteProc config.name, Pm2Command.create config]))
    ∧ (countName procs config.name ≤ 1 →
        countName
          (applyPm2Commands procs (startPm2Process procs config))
          config.name ≤ 1) := by
  refine ⟨?_, ?_, ?_⟩
  · intro h
    simp [startPm2Process, h]
  · intro p hp
    refine ⟨?_, ?_, ?_⟩
    · intro hs
      simp [startPm2Process, hp, hs]
    · intro hs
      simp [startPm2Process, hp, hs]
    · intro h1 h2
      simp [startPm2Process, hp, h1, h2]
  · intro hcount
    cases hfind : getPm2ProcessInfo procs config.name with
    | none =>
        have h0 : countName procs config.name = 0 :=
          countName_find?_none procs config.name hfind
        have hcmd : startPm2Process procs config = [Pm2Command.create config] := by
          simp [startPm2Process, hfind]
        rw [hcmd]
        have happ : applyPm2Commands procs [Pm2Command.create config] =
            procs ++ [⟨config.name, some "online"⟩] := rfl
        rw [happ, countName_append, h0]
        simp [countName]
    | some p =>
        by_cases h1 : p.status = some "online"
        · simpa [startPm2Process, hfind, h1, applyPm2Commands] using hcount
        · by_cases h2 : p.status = some "stopped"
          · simpa [startPm2Process, hfind, h1, h2, applyPm2Commands,
              applyPm2Command, countName_setStatus] using hcount
          · have h0 : countName
                (procs.filter (fun q => q.name ≠ config.name))
                config.name = 0 :=
              countName_filter_ne procs config.name
            simp [startPm2Process, hfind, h1, h2, applyPm2Commands,
              applyPm2Command, countName_append, h0, countName]

/-- Witness for C1 on a concrete supervisor table holding one errored
entry under the name: delete-then-create is issued and one live process
results. -/
theorem startPm2Process_reconciles_witness :
    startPm2Process [⟨"web", some "errored"⟩]
        { name := "web", script := "run.js" } =
      [Pm2Command.deleteProc "web",
        Pm2Command.create { name := "web", script := "run.js" }]
    ∧ countName
        (applyPm2Commands [⟨"web", some "errored"⟩]
          (startPm2Process [⟨"web", some "errored"⟩]
            { name := "web", script := "run.js" })) "web" ≤ 1 := by
  have h := startPm2Process_reconciles [⟨"web", some "errored"⟩]
    { name := "web", script := "run.js" }
  refine ⟨?_, h.2.2 (by decide)⟩
  exact ((h.2.1 ⟨"web", some "errored"⟩ (by decide)).2.2 (by decide) (by decide))

/-! ## C2: fresh-only incremental log reads -/

theorem freshRead_of_lt (f : List Nat) (o : Nat) (h : o < f.length) :
    freshRead f o =
      (bytesToText ((f.drop o).take (min (f.length - o) maxBytes)),
        o + min (f.length - o) maxBytes) := by
  unfold freshRead
  have h1 : (0 : Int) < (f.length : Int) - (o : Int) := by omega
  rw [if_pos h1]
  have h2 : ((f.length : Int) - (o : Int)).toNat = f.length - o := by omega
  rw [h2]

theorem freshRead_of_ge (f : List Nat) (o : Nat) (h : f.length ≤ o) :
    freshRead f o = (noNewLogsMsg, o) := by
  unfold freshRead
  have h1 : ¬ ((0 : Int) < (f.length : Int) - (o : Int)) := by omega
  rw [if_neg h1]

/-- C2: the fresh-only read computes `bytesToRead = size − offset`; when
that is not positive it returns the literal "(no new logs since last
restart)" and keeps the offset; otherwise it returns exactly
`min(bytesToRead, 1MB)` bytes taken at the stored offset and advances
the offset by the amount read.  Consequently a second fresh-only read —
on the log grown only by appending (`ext`) — continues at the first
read's end offset, returns the bytes there, and the byte intervals the
two reads cover are disjoint. -/
theorem freshRead_incremental (file ext : List Nat) (offset : Nat) :
    (file.length ≤ offset → freshRead file offset = (noNewLogsMsg, offset))
    ∧ (offset < file.length →
        freshRead file offset =
          (bytesToText ((file.drop offset).take
              (min (file.length - offset) maxBytes)),
            offset + min (file.length - offset) maxBytes)
        ∧ ((file.drop offset).take
            (min (file.length - offset) maxBytes)).length =
              min (file.length - offset) maxBytes)
    ∧ (offset ≤ (freshRead file offset).2)
    ∧ ((freshRead file offset).2 ≤
        (freshRead (file ++ ext) (freshRead file offset).2).2)
    ∧ ((freshRead file offset).2 < (file ++ ext).length →
        (freshRead (file ++ ext) (freshRead file offset).2).1 =
          bytesToText (((file ++ ext).drop (freshRead file offset).2).take
            (min ((file ++ ext).length - (freshRead file offset).2)
              maxBytes)))
    ∧ (∀ i, offset ≤ i → i < (freshRead file offset).2 →
        ¬((freshRead file offset).2 ≤ i ∧
          i < (freshRead (file ++ ext) (freshRead file offset).2).2)) := by
  refine ⟨?_, ?_, ?_, ?_, ?_, ?_⟩
  · exact freshRead_of_ge file offset
  · intro h
    refine ⟨freshRead_of_lt file offset h, ?_⟩
    simp [List.length_take, List.length_drop]
  · by_cases h : offset < file.length
    · rw [freshRead_of_lt file offset h]
      omega
    · rw [freshRead_of_ge file offset (by omega)]
  · by_cases h2 : (freshRead file offset).2 < (file ++ ext).length
    · rw [freshRead_of_lt (file ++ ext) _ h2]
      omega
    · rw [freshRead_of_ge (file ++ ext) _ (by omega)]
  · intro h2
    exact congrArg Prod.fst (freshRead_of_lt (file ++ ext) _ h2)
  · intro i _ h2 hc
    exact absurd hc.1 (by omega)

/-- Witness for C2 on a concrete five-byte log read from offset 2 and a
follow-up read after two more bytes are appended: the reads cover bytes
2–4 and 5–6 respectively. -/
theorem freshRead_incremental_witness :
    freshRead [72, 73, 74, 75, 76] 2 = (bytesToText [74, 75, 76], 5)
    ∧ freshRead ([72, 73, 74, 75, 76] ++ [77, 78]) 5 =
        (bytesToText [77, 78], 7) := by
  have h := freshRead_incremental [72, 73, 74, 75, 76] [77, 78] 2
  have h1 := (h.2.1 (by decide)).1
  constructor
  · rw [h1]
    decide
  · rw [freshRead_of_lt ([72, 73, 74, 75, 76] ++ [77, 78]) 5 (by decide)]
    decide

/-! ## C5: update merges partial fields and optionally recreates -/

theorem deletePm2Process_eq (procs : Pm2World) (n : String) :
    deletePm2Process procs n =
      if procs.any (fun p => p.name = n) then
        procs.filter (fun p => p.name ≠ n)
      else procs := by
  by_cases h : procs.any (fun p => p.name = n)
  · simp [deletePm2Process, rawPm2Delete, h]
  · simp [deletePm2Process, rawPm2Delete, h]

theorem getPm2ProcessInfo_deletePm2 (procs : Pm2World) (n : String) :
    getPm2ProcessInfo (deletePm2Process procs n) n = none := by
  rw [deletePm2Process_eq]
  by_cases h : procs.any (fun p => p.name = n)
  · rw [if_pos h]
    apply List.find?_eq_none.mpr
    intro p hp
    rcases List.mem_filter.mp hp with ⟨_, h2⟩
    simpa using h2
  · rw [if_neg h]
    apply List.find?_eq_none.mpr
    intro p hp hpn
    exact h (List.any_eq_true.mpr ⟨p, hp, by simpa using hpn⟩)

/-- C5: updating an unregistered name throws without mutating the state;
updating a registered name stores (and returns) the prior config with
exactly the supplied fields replaced — every unspecified field and the
recorded `logOffset` keep their stored values and the `name` stays the
addressed key — and with `applyToPm2` the live process is deleted and
recreated fresh from the updated config; in particular updating only
`env` to `PORT=4000` leaves an entry whose `env` is exactly that. -/
theorem update_merges_fields (st : DevServerState) (procs : Pm2World)
    (name : String) (u : UpdateFields) (applyToPm2 : Bool) :
    (lookupProcess st name = none →
      updateTool st procs name u applyToPm2 =
        { state := st
          commands := []
          result := Except.error ("Managed process '" ++ name ++
            "' is not registered. Use register-managed-process first.") })
    ∧ (∀ existing, lookupProcess st name = some existing →
        ((updateTool st procs name u applyToPm2).state =
            st.setProcess name (mergeConfig existing name u)
          ∧ lookupProcess (updateTool st procs name u applyToPm2).state
              name = some (mergeConfig existing name u))
        ∧ ((mergeConfig existing name u).name = name
          ∧ (existing.name = name →
              (mergeConfig existing name u).name = existing.name)
          ∧ (mergeConfig existing name u).logOffset = existing.logOffset
          ∧ (u.script = none →
              (mergeConfig existing name u).script = existing.script)
          ∧ (∀ v, u.script = some v →
              (mergeConfig existing name u).script = v)
          ∧ (u.cwd = none → (mergeConfig existing name u).cwd = existing.cwd)
          ∧ (∀ v, u.cwd = some v → (mergeConfig existing name u).cwd = some v)
          ∧ (u.args = none →
              (mergeConfig existing name u).args = existing.args)
          ∧ (∀ v, u.args = some v →
              (mergeConfig existing name u).args = some v)
          ∧ (u.env = none → (mergeConfig existing name u).env = existing.env)
          ∧ (∀ v, u.env = some v → (mergeConfig existing name u).env = some v)
          ∧ (u.interpreter = none →
              (mergeConfig existing name u).interpreter = existing.interpreter)
          ∧ (∀ v, u.interpreter = some v →
              (mergeConfig existing name u).interpreter = some v)
          ∧ (u.instances = none →
              (mergeConfig existing name u).instances = existing.instances)
          ∧ (∀ v, u.instances = some v →
              (mergeConfig existing name u).instances = some v)
          ∧ (u.watch = none →
              (mergeConfig existing name u).watch = existing.watch)
          ∧ (∀ v, u.watch = some v →
              (mergeConfig existing name u).watch = some v)
          ∧ (u.autorestart = none →
              (mergeConfig existing name u).autorestart = existing.autorestart)
          ∧ (∀ v, u.autorestart = some v →
              (mergeConfig existing name u).autorestart = some v))
        ∧ (applyToPm2 = true →
            (updateTool st procs name u applyToPm2).commands =
              [Pm2Command.deleteProc name,
                Pm2Command.create (mergeConfig existing name u)]))
    ∧ (∀ existing, lookupProcess st name = some existing →
        lookupProcess (updateTool st procs name
            { env := some [("PORT", "4000")] } true).state name =
          some (mergeConfig existing name { env := some [("PORT", "4000")] })
        ∧ (mergeConfig existing name
            { env := some [("PORT", "4000")] }).env = some [("PORT", "4000")]
        ∧ (updateTool st procs name
              { env := some [("PORT", "4000")] } true).commands =
            [Pm2Command.deleteProc name,
              Pm2Command.create (mergeConfig existing name
                { env := some [("PORT", "4000")] })]) := by
  refine ⟨?_, ?_, ?_⟩
  · intro h
    simp [updateTool, h]
  · intro existing h
    have hname : (mergeConfig existing name u).name = name := rfl
    refine ⟨⟨?_, ?_⟩, ?_, ?_⟩
    · simp [updateTool, h]
    · have hst : (updateTool st procs name u applyToPm2).state =
          st.setProcess name (mergeConfig existing name u) := by
        simp [updateTool, h]
      rw [hst, lookup_setProcess_self]
    · exact ⟨rfl,
        fun hn => by simp [mergeConfig, hn],
        rfl,
        fun h2 => by simp [mergeConfig, h2],
        fun v h2 => by simp [mergeConfig, h2],
        fun h2 => by simp [mergeConfig, h2],
        fun v h2 => by simp [mergeConfig, h2],
        fun h2 => by simp [mergeConfig, h2],
        fun v h2 => by simp [mergeConfig, h2],
        fun h2 => by simp [mergeConfig, h2],
        fun v h2 => by simp [mergeConfig, h2],
        fun h2 => by simp [mergeConfig, h2],
        fun v h2 => by simp [mergeConfig, h2],
        fun h2 => by simp [mergeConfig, h2],
        fun v h2 => by simp [mergeConfig, h2],
        fun h2 => by simp [mergeConfig, h2],
        fun v h2 => by simp [mergeConfig, h2],
        fun h2 => by simp [mergeConfig, h2],
        fun v h2 => by simp [mergeConfig, h2]⟩
    · intro ha
      subst ha
      simp [updateTool, h, startPm2Process, hname, getPm2ProcessInfo_deletePm2]
  · intro existing h
    have hname : (mergeConfig existing name
        { env := some [("PORT", "4000")] }).name = name := rfl
    refine ⟨?_, rfl, ?_⟩
    · have hst : (updateTool st procs name
          { env := some [("PORT", "4000")] } true).state =
          st.setProcess name (mergeConfig existing name
            { env := some [("PORT", "4000")] }) := by
        simp [updateTool, h]
      rw [hst, lookup_setProcess_self]
    · simp [updateTool, h, startPm2Process, hname, getPm2ProcessInfo_deletePm2]

/-- Witness for C5 at a one-entry registry: updating env to PORT=4000
with immediate application stores the merged config and issues
delete-then-create. -/
theorem update_merges_fields_witness :
    let cfg0 : ManagedProcessConfig :=
      { name := "web", script := "run.js", env := some [("PORT", "3000")] }
    let st0 : DevServerState := { managedProcesses := [("web", cfg0)] }
    let u0 : UpdateFields := { env := some [("PORT", "4000")] }
    lookupProcess (updateTool st0 [] "web" u0 true).state "web" =
        some (mergeConfig cfg0 "web" u0)
      ∧ (mergeConfig cfg0 "web" u0).env = some [("PORT", "4000")] := by
  intro cfg0 st0 u0
  have h := (update_merges_fields st0 [] "web" u0 true).2.2 cfg0 (by decide)
  exact ⟨h.1, h.2.1⟩

/-! ## C10: registry entries are keyed by their own name -/

theorem mem_setEntry (l : List (String × ManagedProcessConfig)) (k : String)
    (v : ManagedProcessConfig) (p : String × ManagedProcessConfig)
    (hp : p ∈ setEntry l k v) : p ∈ l ∨ p = (k, v) := by
  induction l with
  | nil =>
      right
      simpa [setEntry] using hp
  | cons hd tl ih =>
      rcases hd with ⟨k', v'⟩
      by_cases hk : k' = k
      · simp only [setEntry, if_pos hk] at hp
        rcases List.mem_cons.mp hp with h1 | h1
        · right; exact h1
        · left; exact List.mem_cons_of_mem _ h1
      · simp only [setEntry, if_neg hk] at hp
        rcases List.mem_cons.mp hp with h1 | h1
        · left; rw [h1]; exact List.mem_cons_self _ _
        · rcases ih h1 with h2 | h2
          · left; exact List.mem_cons_of_mem _ h2
          · right; exact h2

theorem wellNamed_setProcess (st : DevServerState) (k : String)
    (v : ManagedProcessConfig) (h : WellNamed st) (hv : v.name = k) :
    WellNamed (st.setProcess k v) := by
  intro p hp
  rcases mem_setEntry st.managedProcesses k v p hp with h1 | h1
  · exact h p h1
  · rw [h1]; exact hv

theorem wellNamed_removeProcess (st : DevServerState) (k : String)
    (h : WellNamed st) : WellNamed (st.removeProcess k) := by
  intro p hp
  exact h p (List.mem_of_mem_filter hp)

theorem wellNamed_applyRegOp (st : DevServerState) (op : RegOp)
    (h : WellNamed st) : WellNamed (applyRegOp st op) := by
  cases op with
  | register p =>
      exact wellNamed_setProcess st p.name (configOfParams p) h rfl
  | update n u =>
      cases hl : lookupProcess st n with
      | none =>
          have hst : (updateTool st [] n u false).state = st := by
            simp [updateTool, hl]
          show WellNamed (updateTool st [] n u false).state
          rw [hst]
          exact h
      | some e =>
          have hst : (updateTool st [] n u false).state =
              st.setProcess n (mergeConfig e n u) := by
            simp [updateTool, hl]
          show WellNamed (updateTool st [] n u false).state
          rw [hst]
          exact wellNamed_setProcess st n _ h rfl
  | deleteOp n => exact wellNamed_removeProcess st n h

/-- C10: in every registry state reachable from the empty registry by
register, update, and delete operations, every stored binding is keyed
by its own config's `name` field: register stores under `config.name`,
update forces the stored name back to the addressed key, and delete
removes the binding. -/
theorem registry_keyed_by_name (ops : List RegOp) :
    WellNamed (applyRegOps { managedProcesses := [] } ops) := by
  have gen : ∀ (l : List RegOp) (st : DevServerState),
      WellNamed st → WellNamed (applyRegOps st l) := by
    intro l
    induction l with
    | nil => intro st h; exact h
    | cons op tl ih =>
        intro st h
        exact ih _ (wellNamed_applyRegOp st op h)
  refine gen ops _ ?_
  intro p hp
  exact absurd hp (List.not_mem_nil p)

/-- Witness for C10 on a concrete three-operation history. -/
theorem registry_keyed_by_name_witness :
    WellNamed (applyRegOps { managedProcesses := [] }
      [RegOp.register { name := "web", script := "run.js" },
        RegOp.update "web" { script := some "serve.js" },
        RegOp.deleteOp "api"]) :=
  registry_keyed_by_name
    [RegOp.register { name := "web", script := "run.js" },
      RegOp.update "web" { script := some "serve.js" },
      RegOp.deleteOp "api"]

/-! ## C7: autorestart defaults to disabled -/

/-- C7: the built `pm2 start` argument list carries `--no-autorestart`
whenever the config's `autorestart` field is absent or `false`, and only
an explicit `true` omits it — the omission direction assumes the
caller-supplied strings (script, name, cwd, interpreter, instance count
and args) do not themselves spell the flag. -/
theorem start_autorestart_default (c : ManagedProcessConfig) :
    (c.autorestart ≠ some true → "--no-autorestart" ∈ buildStartParts c)
    ∧ (c.autorestart = some true →
        "--no-autorestart" ∉ configFieldStrings c →
        "--no-autorestart" ∉ buildStartParts c) := by
  constructor
  · intro hne
    simp only [buildStartParts, List.mem_append]
    refine Or.inl (Or.inr ?_)
    rw [if_neg hne]
    exact List.mem_singleton.mpr rfl
  · intro hEq h
    simp only [configFieldStrings, List.mem_append] at h
    push_neg at h
    obtain ⟨⟨⟨⟨h1, h2⟩, h3⟩, h4⟩, h5⟩ := h
    intro hm
    have hG : (if c.autorestart = some true then ([] : List String)
        else ["--no-autorestart"]) = [] := if_pos hEq
    simp only [buildStartParts, hG, List.append_nil, List.mem_append] at hm
    rcases hm with ((((((hA | hB) | hC) | hD) | hE) | hF) | hH)
    · simp only [List.mem_cons, List.not_mem_nil, or_false] at hA
      rcases hA with e | e | e | e | e
      · exact absurd e (by decide)
      · exact absurd e (by decide)
      · exact h1 (by rw [e]; exact List.mem_cons_self _ _)
      · exact absurd e (by decide)
      · exact h1 (by rw [e]; exact List.mem_cons_of_mem _ (List.mem_cons_self _ _))
    · rcases hip : c.interpreter with _ | i
      · rw [hip] at hB
        exact absurd hB (List.not_mem_nil _)
      · rw [hip] at hB h2
        simp only [List.mem_cons, List.not_mem_nil, or_false] at hB
        rcases hB with e | e
        · exact absurd e (by decide)
        · exact h2 (by rw [e]; exact List.mem_cons_self _ _)
    · rcases hcw : c.cwd with _ | d
      · rw [hcw] at hC
        exact absurd hC (List.not_mem_nil _)
      · rw [hcw] at hC h3
        simp only [List.mem_cons, List.not_mem_nil, or_false] at hC
        rcases hC with e | e
        · exact absurd e (by decide)
        · exact h3 (by rw [e]; exact List.mem_cons_self _ _)
    · rcases hin : c.instances with _ | n
      · rw [hin] at hD
        exact absurd hD (List.not_mem_nil _)
      · rw [hin] at hD h4
        change "--no-autorestart" ∈ (if 0 < n then ["-i", toString n] else []) at hD
        change "--no-autorestart" ∉ (if 0 < n then [toString n] else []) at h4
        by_cases h0 : (0 : Int) < n
        · rw [if_pos h0] at hD
          rw [if_pos h0] at h4
          simp only [List.mem_cons, List.not_mem_nil, or_false] at hD
          rcases hD with e | e
          · exact absurd e (by decide)
          · exact h4 (by rw [e]; exact List.mem_cons_self _ _)
        · rw [if_neg h0] at hD
          exact absurd hD (List.not_mem_nil _)
    · by_cases hw : c.watch = some true
      · rw [if_pos hw] at hE
        exact absurd hE (by decide)
      · rw [if_neg hw] at hE
        exact absurd hE (List.not_mem_nil _)
    · by_cases hw : c.watch = some false
      · rw [if_pos hw] at hF
        exact absurd hF (by decide)
      · rw [if_neg hw] at hF
        exact absurd hF (List.not_mem_nil _)
    · rcases hargs : c.args with _ | l
      · rw [hargs] at hH
        exact absurd hH (List.not_mem_nil _)
      · rw [hargs] at hH h5
        change "--no-autorestart" ∈ (if 0 < l.length then "--" :: l else []) at hH
        by_cases h0 : 0 < l.length
        · rw [if_pos h0] at hH
          rcases List.mem_cons.mp hH with e | e
          · exact absurd e (by decide)
          · exact h5 e
        · rw [if_neg h0] at hH
          exact absurd hH (List.not_mem_nil _)

/-- Witness for C7: the default config gets the flag, an explicitly
autorestarting config does not. -/
theorem start_autorestart_default_witness :
    "--no-autorestart" ∈ buildStartParts { name := "web", script := "run.js" }
    ∧ "--no-autorestart" ∉ buildStartParts
        { name := "web", script := "run.js", autorestart := some true } := by
  constructor
  · exact (start_autorestart_default
      { name := "web", script := "run.js" }).1 (by decide)
  · exact (start_autorestart_default
      { name := "web", script := "run.js", autorestart := some true }).2
      rfl (by decide)

/-! ## C9: supervisor commands are executed as single shell strings -/

/-- C9 counterexample: two configs with different argument lists (one
argument containing a space versus two separate arguments) build
different `parts` arrays yet the identical joined command string, so the
string handed to the shell does not preserve the argument structure. -/
theorem startCommand_collision :
    let c1 : ManagedProcessConfig :=
      { name := "s", script := "app.js", args := some ["a b"] }
    let c2 : ManagedProcessConfig :=
      { name := "s", script := "app.js", args := some ["a", "b"] }
    buildStartParts c1 ≠ buildStartParts c2
    ∧ startCommandString c1 = startCommandString c2 := by
  decide

/-- C9 amended: every supervisor invocation is executed as one shell
command string — the start command is its parts list joined with single
spaces with no quoting or escaping, the other lifecycle commands are
interpolated templates — and therefore distinct argument structures can
collapse to the same executed string. -/
theorem pm2_commands_single_string (c : ManagedProcessConfig)
    (n : String) :
    pm2CommandString (Pm2Command.create c) =
        String.intercalate " " (buildStartParts c)
    ∧ pm2CommandString (Pm2Command.restart n) = "pm2 restart " ++ n
    ∧ pm2CommandString (Pm2Command.deleteProc n) = "pm2 delete " ++ n
    ∧ pm2CommandString (Pm2Command.stop n) = "pm2 stop " ++ n
    ∧ ∃ c1 c2 : ManagedProcessConfig,
        buildStartParts c1 ≠ buildStartParts c2
        ∧ startCommandString c1 = startCommandString c2 := by
  refine ⟨rfl, rfl, rfl, rfl,
    { name := "s", script := "app.js", args := some ["a b"] },
    { name := "s", script := "app.js", args := some ["a", "b"] },
    ?_, ?_⟩
  · decide
  · decide

/-! ## C4: endpoint discovery -/

/-- C4 counterexample: the port-label fallback is not case-insensitive:
on log text whose only port label is spelled "PoRt", discovery finds
nothing instead of `http://localhost:8080`. -/
theorem discover_port_not_case_insensitive :
    discoverUrl "Listening on PoRt 8080" = none
    ∧ discoverUrl "Listening on PoRt 8080" ≠ some "http://localhost:8080" := by
  have h : discoverUrl "Listening on PoRt 8080" = none := by decide
  exact ⟨h, by simp [h]⟩

/-- C4 amended: discovery linkifies the log text and picks the first
found URL whose full text contains a loopback substring (`localhost`,
`127.0.0.1`, `0.0.0.0`), else the first URL found, stripping trailing
slashes; with no URL it falls back to the exact-case regex
`(port|Port|PORT)[\s:]+(\d{4,5})` and synthesizes
`http://localhost:<digits>`; with neither the start still reports
success, with no address.  The two spec examples hold as stated. -/
theorem endpoint_discovery_spec :
    (∀ logs u, (findUrls logs).find? isLocalHref = some u →
        discoverUrl logs = some (dropTrailingSlashes u))
    ∧ (∀ logs u, (findUrls logs).find? isLocalHref = none →
        (findUrls logs).head? = some u →
        discoverUrl logs = some (dropTrailingSlashes u))
    ∧ (∀ logs, findUrls logs = [] →
        discoverUrl logs = (findPortMatch logs.data).map
          (fun ds => "http://localhost:" ++ String.mk ds))
    ∧ discoverUrl
        "Local: http://localhost:3002\nNetwork: http://192.168.1.5:3002" =
        some "http://localhost:3002"
    ∧ discoverUrl "Listening on port 8080" = some "http://localhost:8080"
    ∧ (∀ st procs outSize logs name cfg,
        lookupProcess st name = some cfg →
        (startTool st procs outSize logs name).result =
          Except.ok ("Server '" ++ name ++ "' started" ++ urlInfoText logs)
        ∧ (discoverUrl logs = none → urlInfoText logs = "")) := by
  refine ⟨?_, ?_, ?_, ?_, ?_, ?_⟩
  · intro logs u h
    simp [discoverUrl, pickUrl, h]
  · intro logs u h h2
    simp [discoverUrl, pickUrl, h, h2]
  · intro logs h
    simp only [discoverUrl, pickUrl, h, List.find?_nil, List.head?_nil]
    cases hp : findPortMatch logs.data <;> simp [hp]
  · decide
  · decide
  · intro st procs outSize logs name cfg h
    constructor
    · simp [startTool, h]
    · intro h2
      simp [urlInfoText, h2]

/-- Witness for C4 on a concrete loopback URL with a trailing slash. -/
theorem endpoint_discovery_spec_witness :
    discoverUrl "Go http://localhost:9/" = some "http://localhost:9" := by
  have h := endpoint_discovery_spec.1 "Go http://localhost:9/"
    "http://localhost:9/" (by decide)
  rw [h]
  decide

/-! ## C6: which operations touch logOffset -/

/-- C6 counterexample: a fresh-only log read is not a start or restart,
yet it advances the addressed entry's stored `logOffset` (here from 0 to
2 after reading a two-byte log). -/
theorem fresh_read_mutates_offset :
    let cfg : ManagedProcessConfig :=
      { name := "web", script := "run.js", logOffset := some 0 }
    let st : DevServerState := { managedProcesses := [("web", cfg)] }
    offsetAt st "web" = some (some 0)
    ∧ offsetAt (readLogsTool st (some [104, 105]) "web" true).1 "web" =
        some (some 2) := by
  decide

/-- C6 amended: `logOffset` is written by start, restart, fresh-only log
reads (which advance it by the number of bytes read) and register (which
replaces the entry with one carrying no offset); update, stop, delete,
and non-fresh log reads leave every entry's recorded offset unchanged. -/
theorem logOffset_frame_conditions :
    (∀ st procs name u ap k,
        offsetAt (updateTool st procs name u ap).state k = offsetAt st k)
    ∧ (∀ st name, (stopTool st name).1 = st)
    ∧ (∀ st procs name dfp k, k ≠ name →
        offsetAt (deleteTool st procs name dfp).1 k = offsetAt st k)
    ∧ (∀ st f name, (readLogsTool st f name false).1 = st)
    ∧ (∀ st f name,
        (lookupProcess st name).bind (fun c => c.logOffset) = none →
        (readLogsTool st f name true).1 = st)
    ∧ (∀ st file name cfg o, lookupProcess st name = some cfg →
        cfg.logOffset = some o → o < file.length →
        offsetAt (readLogsTool st (some file) name true).1 name =
          some (some (o + min (file.length - o) maxBytes)))
    ∧ (∀ st file name cfg o, lookupProcess st name = some cfg →
        cfg.logOffset = some o → file.length ≤ o →
        (readLogsTool st (some file) name true).1 = st)
    ∧ (∀ st procs p, offsetAt (registerTool st procs p).1 p.name =
        some none) := by
  refine ⟨?_, ?_, ?_, ?_, ?_, ?_, ?_, ?_⟩
  · intro st procs name u ap k
    cases hl : lookupProcess st name with
    | none =>
        have hst : (updateTool st procs name u ap).state = st := by
          simp [updateTool, hl]
        rw [hst]
    | some e =>
        have hst : (updateTool st procs name u ap).state =
            st.setProcess name (mergeConfig e name u) := by
          simp [updateTool, hl]
        rw [hst]
        by_cases hk : k = name
        · subst hk
          simp only [offsetAt, lookup_setProcess_self, hl]
          rfl
        · simp only [offsetAt,
            lookup_setProcess_other st name k (mergeConfig e name u) hk]
  · intro st name
    rfl
  · intro st procs name dfp k hk
    show offsetAt (st.removeProcess name) k = offsetAt st k
    simp only [offsetAt, lookup_removeProcess_other st name k hk]
  · intro st f name
    rfl
  · intro st f name h
    simp [readLogsTool, h]
  · intro st file name cfg o hl ho hlt
    have hout := freshRead_of_lt file o hlt
    simp [readLogsTool, hl, ho, hlt, offsetAt, lookup_setProcess_self, hout]
  · intro st file name cfg o hl ho hge
    simp [readLogsTool, hl, ho, show ¬(o < file.length) from by omega]
  · intro st procs p
    simp [registerTool, offsetAt, configOfParams, lookup_setProcess_self]

/-- Witness for C6 at a concrete state: a fresh-only read at offset 1 of
a three-byte log advances the stored offset to 3. -/
theorem logOffset_frame_conditions_witness :
    let cfg : ManagedProcessConfig :=
      { name := "web", script := "run.js", logOffset := some 1 }
    let st : DevServerState := { managedProcesses := [("web", cfg)] }
    offsetAt (readLogsTool st (some [10, 11, 12]) "web" true).1 "web" =
      some (some 3) := by
  intro cfg st
  have h := logOffset_frame_conditions.2.2.2.2.2.1 st [10, 11, 12] "web"
    cfg 1 (by decide) rfl (by decide)
  rw [h]
  decide

end DevServer




